import Mathlib

/-!
Shallow embedding of the `exposed` Go package (Have I Been Pwned range
client).  Go strings are modelled as lists of byte values (`List Nat`);
every string handled by the client code (hashes, modes, response lines)
is ASCII, so bytes and characters coincide.  Plaintext secrets are
modelled as their rune sequences (`List Char`), matching Go's
`[]rune(s)` / `[]byte(s)` views of a valid UTF-8 string.

A Go function that can panic is modelled with an `Option` result where
`none` stands for the panic; a Go `(int, error)` pair is modelled as
`Int × Option GoErr`.
-/

namespace Exposed

/-- Go strings are byte sequences; the client only handles ASCII data. -/
abbrev GoStr := List Nat

/-- Byte view of an ASCII string literal (the Lean-side spelling of Go
string literals such as `"ntlm"`). -/
def ascii (s : String) : GoStr := s.data.map Char.toNat

/-- ASCII fast path of Go `strings.ToUpper` on one byte:
`if 'a' <= c && c <= 'z' { c -= 'a' - 'A' }`. -/
def goUpperByte (b : Nat) : Nat := if 97 ≤ b ∧ b ≤ 122 then b - 32 else b

/-- Go `strings.ToUpper` restricted to ASCII strings (the only strings
the client uppercases: hex digests and mode names). -/
def goToUpper (s : GoStr) : GoStr := s.map goUpperByte

/-- Go `strings.HasPrefix(s, p)`:
`len(s) >= len(p) && s[0:len(p)] == p`. -/
def goHasPrefix (s p : GoStr) : Bool :=
  decide (p.length ≤ s.length) && decide (s.take p.length = p)

/-- Go `strings.Cut(s, sep)` for a one-byte separator: splits at the
first occurrence, returning `(before, after, found)`. -/
def goCut : GoStr → Nat → GoStr × GoStr × Bool
  | [], _ => ([], [], false)
  | c :: cs, sep =>
    if c = sep then ([], cs, true)
    else
      let r := goCut cs sep
      (c :: r.1, r.2.1, r.2.2)

/-- Decimal value of a digit string; `none` on a non-digit byte. -/
def digitsValAux : GoStr → Nat → Option Nat
  | [], acc => some acc
  | c :: cs, acc =>
    if 48 ≤ c ∧ c ≤ 57 then digitsValAux cs (acc * 10 + (c - 48)) else none

/-- Decimal value of a non-empty digit string, `none` otherwise. -/
def digitsVal : GoStr → Option Nat
  | [] => none
  | s => digitsValAux s 0

/-- The (parsed) URL the client builds: a path plus query parameters,
the part of Go's `net/url.URL` this code reads and writes. -/
structure GoURL where
  path : GoStr
  query : List (GoStr × GoStr)
deriving DecidableEq, Repr

/-- The error values the client can return.
`countNotFound` is `errors.New("count not found")` (the spec's
`MalformedEntry`); `atoiSyntax`/`atoiRange` are `strconv.Atoi`'s
`*NumError` with `ErrSyntax`/`ErrRange` (the spec's `MalformedCount`);
`nonOKStatus` is the formatted non-OK HTTP status error, carrying the
request URL and status code (the spec's `Http` error). -/
inductive GoErr where
  | countNotFound
  | atoiSyntax (num : GoStr)
  | atoiRange (num : GoStr)
  | nonOKStatus (u : GoURL) (code : Nat)
deriving DecidableEq, Repr

/-- Go `strconv.Atoi`: optional sign, decimal digits, 64-bit range.
Returns `(0, ErrSyntax)` on a malformed string and the clamped value
with `ErrRange` on overflow, as `ParseInt(s, 10, 0)` does. -/
def goAtoi (s : GoStr) : Int × Option GoErr :=
  let signDigits : Bool × GoStr :=
    match s with
    | 43 :: r => (false, r)
    | 45 :: r => (true, r)
    | r => (false, r)
  match digitsVal signDigits.2 with
  | none => (0, some (GoErr.atoiSyntax s))
  | some n =>
    if signDigits.1 then
      if 9223372036854775808 < n then
        (-9223372036854775808, some (GoErr.atoiRange s))
      else (-(n : Int), none)
    else
      if 9223372036854775807 < n then
        (9223372036854775807, some (GoErr.atoiRange s))
      else ((n : Int), none)

/-- `extractCount`: cut the line at the first `':'` (byte 58); error if
there is none, else `strconv.Atoi` on the part after it. -/
def extractCount (line : GoStr) : Int × Option GoErr :=
  let r := goCut line 58
  if r.2.2 = false then (0, some GoErr.countNotFound)
  else goAtoi r.2.1

/-- `findLineWithPrefix`: first line of the body that starts with `p`,
or `""` when none does (the scanner's reader is pure here, so the
reader-error branch cannot fire). -/
def findLineWithPrefix : List GoStr → GoStr → GoStr
  | [], _ => []
  | l :: ls, p => if goHasPrefix l p then l else findLineWithPrefix ls p

/-- `processResponse`: slice `hash[5:]` (panics — `none` — when the hash
is shorter than 5 bytes), scan for the suffix, `0` with no error when no
line matches, else extract the count from the matched line. -/
def processResponse (respBody : List GoStr) (hash : GoStr) :
    Option (Int × Option GoErr) :=
  if hash.length < 5 then none
  else
    let sfx := hash.drop 5
    let line := findLineWithPrefix respBody sfx
    if line = [] then some (0, none) else some (extractCount line)

/-- Split a path on `'/'` (byte 47), keeping empty components, as the
component view of Go `path.Clean`'s input. -/
def splitSlash : GoStr → List GoStr
  | [] => [[]]
  | 47 :: cs => [] :: splitSlash cs
  | c :: cs =>
    match splitSlash cs with
    | [] => [[c]]
    | g :: gs => (c :: g) :: gs

/-- Component processing of Go `path.Clean`: drop empty and `"."`
components, resolve `".."` against the stack (erased at a rooted path's
start, kept when there is nothing to pop in a relative path). -/
def cleanComps (rooted : Bool) : List GoStr → List GoStr → List GoStr
  | acc, [] => acc.reverse
  | acc, c :: cs =>
    if c = [] ∨ c = [46] then cleanComps rooted acc cs
    else if c = [46, 46] then
      match acc with
      | [] => if rooted then cleanComps rooted [] cs else cleanComps rooted [c] cs
      | top :: rest =>
        if top = [46, 46] then cleanComps rooted (c :: acc) cs
        else cleanComps rooted rest cs
    else cleanComps rooted (c :: acc) cs

/-- Interleave path components with `'/'`. -/
def interSlash : List GoStr → GoStr
  | [] => []
  | [c] => c
  | c :: cs => c ++ 47 :: interSlash cs

/-- Go `path.Clean` (lexical path cleaning, stated on components). -/
def cleanPath (p : GoStr) : GoStr :=
  if p = [] then [46]
  else
    let rooted := p.head? = some 47
    let comps := cleanComps rooted [] (splitSlash p)
    let flat := interSlash comps
    if rooted then 47 :: flat
    else if flat = [] then [46] else flat

/-- Go `path.Join(a, b)`: empty elements are skipped, the rest are
joined with `'/'` and cleaned; all-empty input yields `""`. -/
def pathJoin (a b : GoStr) : GoStr :=
  if a = [] ∧ b = [] then []
  else if a = [] then cleanPath b
  else cleanPath (a ++ 47 :: b)

/-- Go `url.Values.Set(k, v)`: replace every binding of `k` with the
single value `v` (keys are a map in Go; the list keeps insertion
order). -/
def querySet (q : List (GoStr × GoStr)) (k v : GoStr) :
    List (GoStr × GoStr) :=
  q.filter (fun p => decide (p.1 ≠ k)) ++ [(k, v)]

/-- `buildURL`: path is the base path joined with `hash[:5]` (panic —
`none` — when the hash is shorter than 5 bytes); the `mode=ntlm` query
parameter is set exactly when `mode == "ntlm"`.  The base URL arrives
already parsed, so `url.Parse`'s own error branch has no counterpart
here. -/
def buildURL (base : GoURL) (hash mode : GoStr) : Option GoURL :=
  if hash.length < 5 then none
  else some
    { path := pathJoin base.path (hash.take 5),
      query :=
        if mode = ascii "ntlm" then
          querySet base.query (ascii "mode") (ascii "ntlm")
        else base.query }

/-- The part of Go's `*http.Request` this client sets. -/
structure GoRequest where
  method : GoStr
  reqURL : GoURL
  reqBody : Option GoStr
  headers : List (GoStr × GoStr)
deriving DecidableEq, Repr

/-- `newGetRequestWithPadding`: a GET request with no body and the
`Add-Padding: true` header (`http.NewRequest` cannot fail on a valid
method and URL, so its error branch has no counterpart here). -/
def newGetRequestWithPadding (u : GoURL) : GoRequest :=
  { method := ascii "GET", reqURL := u, reqBody := none,
    headers := [(ascii "Add-Padding", ascii "true")] }

/-- The part of Go's `*http.Response` this client reads; the body is the
list of lines the scanner produces. -/
structure HttpResponse where
  statusCode : Nat
  respBody : List GoStr
deriving DecidableEq, Repr

/-- `(*PwnedClient).CheckPwnedHash`, with the transport's delivered
response passed in as data: uppercase the hash, build the URL (and the
padded GET request, which carries no further information), fail with the
non-OK-status error on any status other than 200, else parse the body.
`none` models the slice panic on a hash shorter than 5 bytes. -/
def CheckPwnedHash (base : GoURL) (hash0 mode : GoStr)
    (resp : HttpResponse) : Option (Int × Option GoErr) :=
  let hash := goToUpper hash0
  match buildURL base hash mode with
  | none => none
  | some u =>
    if resp.statusCode ≠ 200 then
      some (0, some (GoErr.nonOKStatus u resp.statusCode))
    else processResponse resp.respBody hash

/-! Hash primitives.  The Go code calls `crypto/sha1` and
`golang.org/x/crypto/md4`; both are implemented here in full over byte
lists, with 32-bit words as `Nat` reduced mod `2^32`. -/

/-- 32-bit left rotation (operands are kept below `2^32`). -/
def rotl32 (x s : Nat) : Nat := ((x <<< s) % 4294967296) ||| (x >>> (32 - s))

/-- Little-endian 32-bit words of a byte sequence. -/
def toWordsLE : GoStr → List Nat
  | b0 :: b1 :: b2 :: b3 :: rest =>
    (b0 + 256 * b1 + 65536 * b2 + 16777216 * b3) :: toWordsLE rest
  | _ => []

/-- Big-endian 32-bit words of a byte sequence. -/
def toWordsBE : GoStr → List Nat
  | b0 :: b1 :: b2 :: b3 :: rest =>
    (16777216 * b0 + 65536 * b1 + 256 * b2 + b3) :: toWordsBE rest
  | _ => []

/-- Split a (padded) message into 64-byte blocks. -/
def chunks64 (l : GoStr) : List GoStr :=
  if h : l = [] then [] else l.take 64 :: chunks64 (l.drop 64)
termination_by l.length
decreasing_by
  have : 0 < l.length := List.length_pos.mpr h
  simp only [List.length_drop]
  omega

/-- Little-endian bytes of a 32-bit word (`byte(w >> 8k) = w / 2^8k % 256`). -/
def le4 (w : Nat) : GoStr := [w % 256, w / 256 % 256, w / 65536 % 256, w / 16777216 % 256]

/-- Big-endian bytes of a 32-bit word. -/
def be4 (w : Nat) : GoStr := [w / 16777216 % 256, w / 65536 % 256, w / 256 % 256, w % 256]

/-- Little-endian bytes of a 64-bit length field. -/
def le8 (n : Nat) : GoStr := le4 (n % 4294967296) ++ le4 (n / 4294967296 % 4294967296)

/-- Big-endian bytes of a 64-bit length field. -/
def be8 (n : Nat) : GoStr := be4 (n / 4294967296 % 4294967296) ++ be4 (n % 4294967296)

/-- Zero bytes needed after the `0x80` marker to reach 56 mod 64. -/
def padZeros (len : Nat) : Nat := (119 - len % 64) % 64

/-- Merkle–Damgård padding with a little-endian bit length (MD4). -/
def mdPad (msg : GoStr) : GoStr :=
  msg ++ 128 :: List.replicate (padZeros msg.length) 0 ++ le8 (8 * msg.length)

/-- Merkle–Damgård padding with a big-endian bit length (SHA-1). -/
def shaPad (msg : GoStr) : GoStr :=
  msg ++ 128 :: List.replicate (padZeros msg.length) 0 ++ be8 (8 * msg.length)

/-- MD4 working state. -/
structure MD4State where
  a : Nat
  b : Nat
  c : Nat
  d : Nat
deriving DecidableEq, Repr

/-- MD4 round-1 boolean function F. -/
def md4F (x y z : Nat) : Nat := (x &&& y) ||| ((x ^^^ 4294967295) &&& z)

/-- MD4 round-2 boolean function G. -/
def md4G (x y z : Nat) : Nat := (x &&& y) ||| (x &&& z) ||| (y &&& z)

/-- MD4 round-3 boolean function H. -/
def md4H (x y z : Nat) : Nat := x ^^^ y ^^^ z

/-- One MD4 step on rotating registers: the first register is updated
and the registers shift so that the next step again updates the
first. -/
def md4Step (f : Nat → Nat → Nat → Nat) (t : Nat) (x : List Nat)
    (st : MD4State) (ks : Nat × Nat) : MD4State :=
  ⟨st.d, rotl32 ((st.a + f st.b st.c st.d + x.getD ks.1 0 + t) % 4294967296) ks.2,
   st.b, st.c⟩

/-- MD4 round 1 message indices and shifts. -/
def md4Ks1 : List (Nat × Nat) :=
  [(0,3),(1,7),(2,11),(3,19),(4,3),(5,7),(6,11),(7,19),
   (8,3),(9,7),(10,11),(11,19),(12,3),(13,7),(14,11),(15,19)]

/-- MD4 round 2 message indices and shifts. -/
def md4Ks2 : List (Nat × Nat) :=
  [(0,3),(4,5),(8,9),(12,13),(1,3),(5,5),(9,9),(13,13),
   (2,3),(6,5),(10,9),(14,13),(3,3),(7,5),(11,9),(15,13)]

/-- MD4 round 3 message indices and shifts. -/
def md4Ks3 : List (Nat × Nat) :=
  [(0,3),(8,9),(4,11),(12,15),(2,3),(10,9),(6,11),(14,15),
   (1,3),(9,9),(5,11),(13,15),(3,3),(11,9),(7,11),(15,15)]

/-- MD4 compression of one 64-byte block. -/
def md4Block (st : MD4State) (chunk : GoStr) : MD4State :=
  let x := toWordsLE chunk
  let s1 := md4Ks1.foldl (md4Step md4F 0 x) st
  let s2 := md4Ks2.foldl (md4Step md4G 1518500249 x) s1
  let s3 := md4Ks3.foldl (md4Step md4H 1859775393 x) s2
  ⟨(st.a + s3.a) % 4294967296, (st.b + s3.b) % 4294967296,
   (st.c + s3.c) % 4294967296, (st.d + s3.d) % 4294967296⟩

/-- MD4 initial state. -/
def md4Init : MD4State := ⟨1732584193, 4023233417, 2562383102, 271733878⟩

/-- MD4 digest (16 bytes, state words serialized little-endian). -/
def md4Bytes (msg : GoStr) : GoStr :=
  let fin := (chunks64 (mdPad msg)).foldl md4Block md4Init
  le4 fin.a ++ le4 fin.b ++ le4 fin.c ++ le4 fin.d

/-- SHA-1 working state. -/
structure SHA1State where
  h0 : Nat
  h1 : Nat
  h2 : Nat
  h3 : Nat
  h4 : Nat
deriving DecidableEq, Repr

/-- Extend the 16 message words to 80 (`fuel` applications of the
rotate-xor recurrence, called with fuel 64). -/
def sha1ExtendAux : Nat → List Nat → List Nat
  | 0, w => w
  | n + 1, w =>
    sha1ExtendAux n
      (w ++ [rotl32 (w.getD (w.length - 3) 0 ^^^ w.getD (w.length - 8) 0 ^^^
                     w.getD (w.length - 14) 0 ^^^ w.getD (w.length - 16) 0) 1])

/-- SHA-1 round boolean function for round `t`. -/
def sha1F (t b c d : Nat) : Nat :=
  if t < 20 then (b &&& c) ||| ((b ^^^ 4294967295) &&& d)
  else if t < 40 then b ^^^ c ^^^ d
  else if t < 60 then (b &&& c) ||| (b &&& d) ||| (c &&& d)
  else b ^^^ c ^^^ d

/-- SHA-1 round constant for round `t`. -/
def sha1K (t : Nat) : Nat :=
  if t < 20 then 1518500249
  else if t < 40 then 1859775393
  else if t < 60 then 2400959708
  else 3395469782

/-- One SHA-1 round on the five-register state. -/
def sha1Step (w : List Nat) (st : Nat × Nat × Nat × Nat × Nat) (t : Nat) :
    Nat × Nat × Nat × Nat × Nat :=
  ((rotl32 st.1 5 + sha1F t st.2.1 st.2.2.1 st.2.2.2.1 + st.2.2.2.2 +
      sha1K t + w.getD t 0) % 4294967296,
   st.1, rotl32 st.2.1 30, st.2.2.1, st.2.2.2.1)

/-- SHA-1 compression of one 64-byte block. -/
def sha1Block (st : SHA1State) (chunk : GoStr) : SHA1State :=
  let w := sha1ExtendAux 64 (toWordsBE chunk)
  let r := (List.range 80).foldl (sha1Step w) (st.h0, st.h1, st.h2, st.h3, st.h4)
  ⟨(st.h0 + r.1) % 4294967296, (st.h1 + r.2.1) % 4294967296,
   (st.h2 + r.2.2.1) % 4294967296, (st.h3 + r.2.2.2.1) % 4294967296,
   (st.h4 + r.2.2.2.2) % 4294967296⟩

/-- SHA-1 initial state. -/
def sha1Init : SHA1State :=
  ⟨1732584193, 4023233417, 2562383102, 271733878, 3285377520⟩

/-- SHA-1 digest (20 bytes, state words serialized big-endian). -/
def sha1Bytes (msg : GoStr) : GoStr :=
  let fin := (chunks64 (shaPad msg)).foldl sha1Block sha1Init
  be4 fin.h0 ++ be4 fin.h1 ++ be4 fin.h2 ++ be4 fin.h3 ++ be4 fin.h4

/-- One lowercase hex digit, as Go `encoding/hex`'s table yields it. -/
def hexDigit (n : Nat) : Nat := if n < 10 then 48 + n else 87 + n

/-- Go `hex.EncodeToString`: two lowercase hex digits per byte. -/
def hexEncode (bs : GoStr) : GoStr :=
  (bs.map (fun b => [hexDigit (b / 16), hexDigit (b % 16)])).flatten

/-- UTF-8 bytes of one scalar value (Go's `[]byte(s)` view of a valid
string, per rune). -/
def utf8EncodeChar (n : Nat) : GoStr :=
  if n < 128 then [n]
  else if n < 2048 then [192 + n / 64, 128 + n % 64]
  else if n < 65536 then [224 + n / 4096, 128 + n / 64 % 64, 128 + n % 64]
  else [240 + n / 262144, 128 + n / 4096 % 64, 128 + n / 64 % 64, 128 + n % 64]

/-- Go `[]byte(s)`: the UTF-8 encoding of the secret's runes. -/
def utf8Bytes (s : List Char) : GoStr :=
  (s.map (fun c => utf8EncodeChar c.toNat)).flatten

/-- Go `utf16.Encode` on one rune: one code unit below `0x10000`
(surrogate code points and out-of-range values become `U+FFFD`, a case a
Lean `Char` cannot produce), a surrogate pair above. -/
def utf16EncodeRune (n : Nat) : List Nat :=
  if n < 55296 ∨ (57343 < n ∧ n < 65536) then [n]
  else if 65536 ≤ n ∧ n ≤ 1114111 then
    [55296 + (n - 65536) / 1024, 56320 + (n - 65536) % 1024]
  else [65533]

/-- Go `utf16.Encode([]rune(s))`. -/
def utf16Units (s : List Char) : List Nat :=
  (s.map (fun c => utf16EncodeRune c.toNat)).flatten

/-- The UTF-16LE byte serialization `binary.LittleEndian.PutUint16`
produces in `ntHash`. -/
def utf16leBytes (s : List Char) : GoStr :=
  ((utf16Units s).map (fun u => [u % 256, u / 256 % 256])).flatten

/-- `ntHash`: MD4 of the secret's UTF-16LE bytes, uppercase hex. -/
def ntHash (s : List Char) : GoStr :=
  goToUpper (hexEncode (md4Bytes (utf16leBytes s)))

/-- `sha1Hash`: SHA-1 of the secret's UTF-8 bytes, uppercase hex. -/
def sha1Hash (s : List Char) : GoStr :=
  goToUpper (hexEncode (sha1Bytes (utf8Bytes s)))

/-- `(*PwnedClient).CheckPwnedPassword`: hash with `ntHash` when mode is
`"ntlm"`, with `sha1Hash` otherwise (the `switch`'s `default`), then
delegate to `CheckPwnedHash`. -/
def CheckPwnedPassword (base : GoURL) (password : List Char) (mode : GoStr)
    (resp : HttpResponse) : Option (Int × Option GoErr) :=
  let hash := if mode = ascii "ntlm" then ntHash password else sha1Hash password
  CheckPwnedHash base hash mode resp

/-- Modelled from the spec: the Hasher contract
`digest(secret, algorithm)` of §4.1/§4.3 (the Go code has no standalone
digest function; the dispatch lives inline in `CheckPwnedPassword`).
Used to state the delegation claim `checkPassword = checkHash ∘ digest`. -/
def hasherDigest (secret : List Char) (mode : GoStr) : GoStr :=
  if mode = ascii "ntlm" then ntHash secret else sha1Hash secret

/-! General lemmas about the embedded operations. -/

/-- Uppercasing a byte twice is the same as doing it once. -/
theorem goUpperByte_idem (b : Nat) : goUpperByte (goUpperByte b) = goUpperByte b := by
  unfold goUpperByte
  split_ifs <;> omega

/-- `strings.ToUpper` is idempotent on byte strings. -/
theorem goToUpper_idem (s : GoStr) : goToUpper (goToUpper s) = goToUpper s := by
  induction s with
  | nil => rfl
  | cons b bs ih =>
    simp only [goToUpper, List.map_cons] at ih ⊢
    rw [goUpperByte_idem]
    exact congrArg _ (by simpa [goToUpper] using ih)

/-- Uppercasing preserves length. -/
theorem goToUpper_length (s : GoStr) : (goToUpper s).length = s.length := by
  simp [goToUpper]

/-- `strings.Cut` on a string that does not contain the separator. -/
theorem goCut_of_not_mem (l : GoStr) (sep : Nat) (h : ¬ sep ∈ l) :
    goCut l sep = (l, [], false) := by
  induction l with
  | nil => rfl
  | cons c cs ih =>
    simp only [List.mem_cons, not_or] at h
    have hc : ¬ c = sep := fun hc => h.1 hc.symm
    simp [goCut, hc, ih h.2]

/-- `strings.Cut` splits at the first separator occurrence. -/
theorem goCut_append (b a : GoStr) (sep : Nat) (h : ¬ sep ∈ b) :
    goCut (b ++ sep :: a) sep = (b, a, true) := by
  induction b with
  | nil => simp [goCut]
  | cons c cs ih =>
    simp only [List.mem_cons, not_or] at h
    have hc : ¬ c = sep := fun hc => h.1 hc.symm
    simp [goCut, hc, ih h.2]

/-- A line with no colon fails `extractCount` with the count-not-found
error. -/
theorem extractCount_no_colon (l : GoStr) (h : ¬ 58 ∈ l) :
    extractCount l = (0, some GoErr.countNotFound) := by
  simp [extractCount, goCut_of_not_mem l 58 h]

/-- On a line `before ++ ":" ++ after` whose `before` part has no colon,
`extractCount` is `strconv.Atoi` of `after`. -/
theorem extractCount_split (b a : GoStr) (h : ¬ 58 ∈ b) :
    extractCount (b ++ 58 :: a) = goAtoi a := by
  simp [extractCount, goCut_append b a 58 h]

/-- The URL `buildURL` produces when the hash is long enough. -/
def builtRangeURL (base : GoURL) (hash mode : GoStr) : GoURL :=
  { path := pathJoin base.path (hash.take 5),
    query :=
      if mode = ascii "ntlm" then
        querySet base.query (ascii "mode") (ascii "ntlm")
      else base.query }

/-- `buildURL` succeeds exactly on hashes of length at least 5. -/
theorem buildURL_eq (base : GoURL) (hash mode : GoStr) (h : 5 ≤ hash.length) :
    buildURL base hash mode = some (builtRangeURL base hash mode) := by
  simp [buildURL, builtRangeURL, Nat.not_lt.mpr h]

/-- The possible errors of `goAtoi`: never the HTTP-status error. -/
theorem goAtoi_snd_ne_http (s : GoStr) (u : GoURL) (c : Nat) :
    (goAtoi s).2 ≠ some (GoErr.nonOKStatus u c) := by
  unfold goAtoi
  dsimp only
  split
  · simp
  · split_ifs <;> simp

/-- The possible errors of `extractCount`: never the HTTP-status error. -/
theorem extractCount_snd_ne_http (l : GoStr) (u : GoURL) (c : Nat) :
    (extractCount l).2 ≠ some (GoErr.nonOKStatus u c) := by
  rcases hc : goCut l 58 with ⟨b, a, found⟩
  cases found <;> simp [extractCount, hc]
  exact goAtoi_snd_ne_http a u c

/-- Response parsing never produces the HTTP-status error. -/
theorem processResponse_snd_ne_http (body : List GoStr) (hash : GoStr)
    (r : Int × Option GoErr) (hr : processResponse body hash = some r)
    (u : GoURL) (c : Nat) : r.2 ≠ some (GoErr.nonOKStatus u c) := by
  unfold processResponse at hr
  by_cases h1 : hash.length < 5
  · simp [h1] at hr
  · rw [if_neg h1] at hr
    dsimp only at hr
    by_cases h2 : findLineWithPrefix body (hash.drop 5) = []
    · rw [if_pos h2] at hr
      cases Option.some.inj hr
      simp
    · rw [if_neg h2] at hr
      cases Option.some.inj hr
      exact extractCount_snd_ne_http _ u c

/-- On an entry line `SUFFIX ++ ":" ++ COUNT` whose suffix field has the
queried suffix's length, the scanner's prefix test is exactly equality
of the suffix fields. -/
theorem goHasPrefix_entry (e1 e2 sfx : GoStr) (hlen : e1.length = sfx.length) :
    goHasPrefix (e1 ++ 58 :: e2) sfx = true ↔ e1 = sfx := by
  simp only [goHasPrefix, Bool.and_eq_true, decide_eq_true_eq]
  constructor
  · rintro ⟨_, htake⟩
    rw [← hlen, List.take_left] at htake
    exact htake
  · rintro rfl
    refine ⟨?_, ?_⟩
    · simp only [List.length_append, List.length_cons]
      omega
    · rw [← hlen, List.take_left]

/-- Scanning a body of well-formed `SUFFIX:COUNT` lines whose suffix
fields all have the queried suffix's length finds precisely the line of
the first entry whose suffix field equals the queried suffix. -/
theorem findLine_entries (sfx : GoStr) (entries : List (GoStr × GoStr))
    (h : ∀ e ∈ entries, e.1.length = sfx.length) :
    findLineWithPrefix (entries.map (fun e => e.1 ++ 58 :: e.2)) sfx =
      (match entries.find? (fun e => decide (e.1 = sfx)) with
       | some e => e.1 ++ 58 :: e.2
       | none => []) := by
  induction entries with
  | nil => rfl
  | cons e es ih =>
    rcases e with ⟨e1, e2⟩
    have hlen := h ⟨e1, e2⟩ (List.mem_cons_self _ es)
    have ihh := ih (fun x hx => h x (List.mem_cons_of_mem _ hx))
    by_cases he : e1 = sfx
    · subst he
      have hp : goHasPrefix (e1 ++ 58 :: e2) e1 = true :=
        (goHasPrefix_entry e1 e2 e1 rfl).mpr rfl
      simp [findLineWithPrefix, List.find?_cons, hp]
    · have hp : goHasPrefix (e1 ++ 58 :: e2) sfx = false := by
        rcases hb : goHasPrefix (e1 ++ 58 :: e2) sfx with _ | _
        · rfl
        · exact absurd ((goHasPrefix_entry e1 e2 sfx hlen).mp hb) he
      simp [findLineWithPrefix, List.find?_cons, hp, he, ihh]

/-- `hex.EncodeToString` yields two characters per byte. -/
theorem hexEncode_length (bs : GoStr) : (hexEncode bs).length = 2 * bs.length := by
  induction bs with
  | nil => rfl
  | cons b rest ih =>
    simp only [hexEncode, List.map_cons, List.flatten_cons] at ih ⊢
    simp [ih]
    omega

/-- An MD4 digest is 16 bytes. -/
theorem md4Bytes_length (msg : GoStr) : (md4Bytes msg).length = 16 := by
  simp [md4Bytes, le4]

/-- A SHA-1 digest is 20 bytes. -/
theorem sha1Bytes_length (msg : GoStr) : (sha1Bytes msg).length = 20 := by
  simp [sha1Bytes, be4]

/-- Every byte an MD4 digest serializes is below 256. -/
theorem md4Bytes_lt (msg : GoStr) : ∀ b ∈ md4Bytes msg, b < 256 := by
  intro b hb
  simp only [md4Bytes, le4, List.mem_append, List.mem_cons,
    List.not_mem_nil, or_false] at hb
  omega

/-- Every byte a SHA-1 digest serializes is below 256. -/
theorem sha1Bytes_lt (msg : GoStr) : ∀ b ∈ sha1Bytes msg, b < 256 := by
  intro b hb
  simp only [sha1Bytes, be4, List.mem_append, List.mem_cons,
    List.not_mem_nil, or_false] at hb
  omega

/-- The character set of digests: decimal digits and uppercase `A`–`F`. -/
def isUpperHexStr (t : GoStr) : Prop :=
  ∀ c ∈ t, (48 ≤ c ∧ c ≤ 57) ∨ (65 ≤ c ∧ c ≤ 70)

/-- An uppercased hex digit of a nibble is a digit or `A`–`F`. -/
theorem hexDigit_upper (n : Nat) (h : n < 16) :
    (48 ≤ goUpperByte (hexDigit n) ∧ goUpperByte (hexDigit n) ≤ 57) ∨
    (65 ≤ goUpperByte (hexDigit n) ∧ goUpperByte (hexDigit n) ≤ 70) := by
  unfold hexDigit goUpperByte
  split_ifs <;> omega

/-- Uppercased hex encoding of bytes is all uppercase hex characters. -/
theorem hexEncode_upperHex (bs : GoStr) (h : ∀ b ∈ bs, b < 256) :
    isUpperHexStr (goToUpper (hexEncode bs)) := by
  induction bs with
  | nil => intro c hc; cases hc
  | cons b rest ih =>
    intro c hc
    have hb : b < 256 := h b (List.mem_cons_self b rest)
    simp only [hexEncode, goToUpper, List.map_cons, List.flatten_cons,
      List.map_append, List.cons_append, List.nil_append, List.mem_cons] at hc
    rcases hc with rfl | rfl | hc
    · exact hexDigit_upper (b / 16) (by omega)
    · exact hexDigit_upper (b % 16) (by omega)
    · exact ih (fun x hx => h x (List.mem_cons_of_mem b hx)) c
        (by simpa [hexEncode, goToUpper] using hc)

/-! Claim theorems. -/

/-- C6: `CheckPwnedHash` normalizes its hash argument to uppercase
before building the request and matching the response, so its result on
any hash equals its result on the uppercased hash — the operation is
case-insensitive in the hash argument. -/
theorem C6_checkHash_case_insensitive (base : GoURL) (hash mode : GoStr)
    (resp : HttpResponse) :
    CheckPwnedHash base hash mode resp =
      CheckPwnedHash base (goToUpper hash) mode resp := by
  unfold CheckPwnedHash
  rw [goToUpper_idem]

/-- C7: `CheckPwnedPassword` first computes the digest of the secret
under the selected algorithm (the Hasher contract `hasherDigest`) and
then returns exactly `CheckPwnedHash` of that digest: the two compose
for every secret, algorithm, base URL and response. -/
theorem C7_checkPassword_delegates (base : GoURL) (password : List Char)
    (mode : GoStr) (resp : HttpResponse) :
    CheckPwnedPassword base password mode resp =
      CheckPwnedHash base (hasherDigest password mode) mode resp := rfl

/-- C8: for every algorithm value outside `{sha1, ntlm}` the Hasher path
does not fail: it silently hashes the secret with SHA-1, exactly as it
would for the value `sha1`. -/
theorem C8_unknown_mode_falls_back_to_sha1 (password : List Char)
    (mode : GoStr) (h1 : mode ≠ ascii "sha1") (h2 : mode ≠ ascii "ntlm") :
    hasherDigest password mode = sha1Hash password ∧
    hasherDigest password mode = hasherDigest password (ascii "sha1") ∧
    ∀ (base : GoURL) (resp : HttpResponse),
      CheckPwnedPassword base password mode resp =
        CheckPwnedHash base (sha1Hash password) mode resp := by
  have hs : ascii "sha1" ≠ ascii "ntlm" := by decide
  refine ⟨by simp [hasherDigest, h2], by simp [hasherDigest, h2, hs], ?_⟩
  intro base resp
  unfold CheckPwnedPassword
  rw [if_neg h2]

/-- Witness for C8 at the concrete unrecognized algorithm `"md5"`. -/
theorem C8_unknown_mode_falls_back_to_sha1_witness :
    hasherDigest [Char.ofNat 97] (ascii "md5") = sha1Hash [Char.ofNat 97] ∧
    hasherDigest [Char.ofNat 97] (ascii "md5") =
      hasherDigest [Char.ofNat 97] (ascii "sha1") ∧
    ∀ (base : GoURL) (resp : HttpResponse),
      CheckPwnedPassword base [Char.ofNat 97] (ascii "md5") resp =
        CheckPwnedHash base (sha1Hash [Char.ofNat 97]) (ascii "md5") resp :=
  C8_unknown_mode_falls_back_to_sha1 [Char.ofNat 97] (ascii "md5")
    (by decide) (by decide)

/-- C10: the check has the unstated precondition that the hash is at
least 5 bytes long — any shorter hash makes the slicing panic (`none`),
and any hash of length at least 5 avoids the panic. -/
theorem C10_short_hash_panics (base : GoURL) (hash mode : GoStr)
    (resp : HttpResponse) :
    (hash.length < 5 → CheckPwnedHash base hash mode resp = none) ∧
    (5 ≤ hash.length → CheckPwnedHash base hash mode resp ≠ none) := by
  constructor
  · intro h
    simp [CheckPwnedHash, buildURL, goToUpper_length, h]
  · intro h
    have h5 : 5 ≤ (goToUpper hash).length := by rw [goToUpper_length]; exact h
    simp only [CheckPwnedHash, buildURL_eq base (goToUpper hash) mode h5]
    split_ifs with hst
    · simp
    · simp [processResponse, Nat.not_lt.mpr h5]
      split_ifs <;> simp

/-- Witness for C10 at the concrete two-byte hash `"AB"`. -/
theorem C10_short_hash_panics_witness :
    (ascii "AB").length < 5 ∧
    CheckPwnedHash ⟨ascii "/range", []⟩ (ascii "AB") (ascii "sha1")
      ⟨200, []⟩ = none :=
  ⟨by decide,
   (C10_short_hash_panics ⟨ascii "/range", []⟩ (ascii "AB") (ascii "sha1")
      ⟨200, []⟩).1 (by decide)⟩

/-- C2: the outbound request is a GET with no body whose URL path is the
base path joined with exactly the first 5 characters of the uppercased
digest (the suffix is never transmitted: the URL depends only on those 5
characters), with `mode=ntlm` attached if and only if the algorithm is
`ntlm`, and with the `Add-Padding: true` header set. -/
theorem C2_request_shape (base : GoURL) (hash mode : GoStr)
    (h5 : 5 ≤ hash.length) (hq : base.query = []) :
    buildURL base (goToUpper hash) mode =
      some { path := pathJoin base.path ((goToUpper hash).take 5),
             query := if mode = ascii "ntlm" then
                 [(ascii "mode", ascii "ntlm")] else [] } ∧
    (∀ hash2 : GoStr, 5 ≤ hash2.length →
        (goToUpper hash).take 5 = (goToUpper hash2).take 5 →
        buildURL base (goToUpper hash) mode =
          buildURL base (goToUpper hash2) mode) ∧
    ∀ u : GoURL,
      (newGetRequestWithPadding u).method = ascii "GET" ∧
      (newGetRequestWithPadding u).reqBody = none ∧
      (ascii "Add-Padding", ascii "true") ∈ (newGetRequestWithPadding u).headers := by
  have h5' : 5 ≤ (goToUpper hash).length := by rw [goToUpper_length]; exact h5
  refine ⟨?_, ?_, ?_⟩
  · rw [buildURL_eq base (goToUpper hash) mode h5']
    simp [builtRangeURL, querySet, hq]
  · intro hash2 hl2 heq
    have h5'' : 5 ≤ (goToUpper hash2).length := by rw [goToUpper_length]; exact hl2
    rw [buildURL_eq base (goToUpper hash) mode h5',
        buildURL_eq base (goToUpper hash2) mode h5'']
    simp [builtRangeURL, heq]
  · intro u
    exact ⟨rfl, rfl, by simp [newGetRequestWithPadding]⟩

/-- Witness for C2 at a concrete base URL, digest and the NTLM mode. -/
theorem C2_request_shape_witness :
    5 ≤ (ascii "5baa61e4").length ∧ (GoURL.mk (ascii "/range") []).query = [] ∧
    (buildURL ⟨ascii "/range", []⟩ (goToUpper (ascii "5baa61e4")) (ascii "ntlm") =
      some { path := pathJoin (ascii "/range") ((goToUpper (ascii "5baa61e4")).take 5),
             query := if ascii "ntlm" = ascii "ntlm" then
                 [(ascii "mode", ascii "ntlm")] else [] } ∧
    (∀ hash2 : GoStr, 5 ≤ hash2.length →
        (goToUpper (ascii "5baa61e4")).take 5 = (goToUpper hash2).take 5 →
        buildURL ⟨ascii "/range", []⟩ (goToUpper (ascii "5baa61e4")) (ascii "ntlm") =
          buildURL ⟨ascii "/range", []⟩ (goToUpper hash2) (ascii "ntlm")) ∧
    ∀ u : GoURL,
      (newGetRequestWithPadding u).method = ascii "GET" ∧
      (newGetRequestWithPadding u).reqBody = none ∧
      (ascii "Add-Padding", ascii "true") ∈ (newGetRequestWithPadding u).headers) :=
  ⟨by decide, rfl,
   C2_request_shape ⟨ascii "/range", []⟩ (ascii "5baa61e4") (ascii "ntlm")
     (by decide) rfl⟩

/-- C5 (amended): a check fails with the HTTP-status error exactly when
the delivered status is not 200 (not merely outside 2xx); the error
carries the requested URL and the status code, and the count is 0. -/
theorem C5_http_error_iff_non_200 (base : GoURL) (hash mode : GoStr)
    (resp : HttpResponse) (h5 : 5 ≤ hash.length) :
    (resp.statusCode ≠ 200 →
      CheckPwnedHash base hash mode resp =
        some (0, some (GoErr.nonOKStatus
          (builtRangeURL base (goToUpper hash) mode) resp.statusCode))) ∧
    (resp.statusCode = 200 →
      ∀ r, CheckPwnedHash base hash mode resp = some r →
        ∀ (u : GoURL) (c : Nat), r.2 ≠ some (GoErr.nonOKStatus u c)) := by
  have h5' : 5 ≤ (goToUpper hash).length := by rw [goToUpper_length]; exact h5
  constructor
  · intro hst
    simp [CheckPwnedHash, buildURL_eq base (goToUpper hash) mode h5', hst]
  · intro hst r hr u c
    simp [CheckPwnedHash, buildURL_eq base (goToUpper hash) mode h5', hst] at hr
    exact processResponse_snd_ne_http _ _ r hr u c

/-- Witness for C5 at a concrete 500 response. -/
theorem C5_http_error_iff_non_200_witness :
    5 ≤ (ascii "5BAA6AAAA").length ∧
    CheckPwnedHash ⟨ascii "/range", []⟩ (ascii "5BAA6AAAA") (ascii "sha1")
        ⟨500, []⟩ =
      some (0, some (GoErr.nonOKStatus
        (builtRangeURL ⟨ascii "/range", []⟩ (goToUpper (ascii "5BAA6AAAA"))
          (ascii "sha1")) 500)) :=
  ⟨by decide,
   (C5_http_error_iff_non_200 ⟨ascii "/range", []⟩ (ascii "5BAA6AAAA")
      (ascii "sha1") ⟨500, []⟩ (by decide)).1 (by decide)⟩

/-- C5 counterexample: status 201 is a 2xx status, yet the code fails
with the HTTP-status error (the claim's "non-2xx" boundary is wrong: the
code treats everything other than 200 as failure). -/
theorem C5_counterexample_2xx_status :
    CheckPwnedHash ⟨ascii "/range", []⟩ (ascii "5BAA6AAAA") (ascii "sha1")
        ⟨201, []⟩ =
      some (0, some (GoErr.nonOKStatus ⟨ascii "/range/5BAA6", []⟩ 201)) ∧
    200 ≤ 201 ∧ 201 < 300 := by decide

/-- C4 (amended): a malformed (colonless) line aborts the scan exactly
when it is the line the prefix scan matches: if the first line starting
with the queried suffix is nonempty and has no `':'`, parsing fails with
the count-not-found (`MalformedEntry`) error and count 0. -/
theorem C4_matched_malformed_line_aborts (body : List GoStr) (hash : GoStr)
    (h5 : 5 ≤ hash.length)
    (hne : findLineWithPrefix body (hash.drop 5) ≠ [])
    (hnc : ¬ 58 ∈ findLineWithPrefix body (hash.drop 5)) :
    processResponse body hash = some (0, some GoErr.countNotFound) := by
  unfold processResponse
  rw [if_neg (Nat.not_lt.mpr h5)]
  dsimp only
  rw [if_neg hne, extractCount_no_colon _ hnc]

/-- Witness for C4: the matched line `"BBBB"` has no colon and fails. -/
theorem C4_matched_malformed_line_aborts_witness :
    5 ≤ (ascii "AAAAABBBB").length ∧
    findLineWithPrefix [ascii "BBBB"] ((ascii "AAAAABBBB").drop 5) ≠ [] ∧
    ¬ 58 ∈ findLineWithPrefix [ascii "BBBB"] ((ascii "AAAAABBBB").drop 5) ∧
    processResponse [ascii "BBBB"] (ascii "AAAAABBBB") =
      some (0, some GoErr.countNotFound) :=
  ⟨by decide, by decide, by decide,
   C4_matched_malformed_line_aborts [ascii "BBBB"] (ascii "AAAAABBBB")
     (by decide) (by decide) (by decide)⟩

/-- C4 counterexample: the body contains the colonless line `"ZZZZ"`,
yet parsing succeeds with count 7 — a malformed line that does not match
the queried suffix is silently skipped, not an error. -/
theorem C4_counterexample_skipped_malformed_line :
    processResponse [ascii "ZZZZ", ascii "BBBB:7"] (ascii "AAAAABBBB") =
      some (7, none) ∧
    ¬ 58 ∈ ascii "ZZZZ" := by decide

/-- C9 (amended): the count field is parsed by `strconv.Atoi`, so a
field that is not a syntactically valid (optionally signed, 64-bit)
integer yields a `MalformedCount` error rather than a count — but a
negative number is valid to the parser and is returned as the count, so
the parsed count is not guaranteed non-negative. -/
theorem C9_invalid_count_field_errors (b a : GoStr) (hb : ¬ 58 ∈ b)
    (ha : (goAtoi a).2 ≠ none) :
    extractCount (b ++ 58 :: a) = goAtoi a ∧
    (extractCount (b ++ 58 :: a)).2 ≠ none := by
  have he := extractCount_split b a hb
  exact ⟨he, by rw [he]; exact ha⟩

/-- Witness for C9 at the non-numeric count field `"x2"`. -/
theorem C9_invalid_count_field_errors_witness :
    ¬ 58 ∈ ascii "04EF8" ∧ (goAtoi (ascii "x2")).2 ≠ none ∧
    (extractCount (ascii "04EF8" ++ 58 :: ascii "x2") = goAtoi (ascii "x2") ∧
     (extractCount (ascii "04EF8" ++ 58 :: ascii "x2")).2 ≠ none) :=
  ⟨by decide, by decide,
   C9_invalid_count_field_errors (ascii "04EF8") (ascii "x2")
     (by decide) (by decide)⟩

/-- C9 counterexample: the negative count field `-5` is accepted and
returned as the count with no error, contradicting the claim that a
negative number causes a `MalformedCount` error. -/
theorem C9_counterexample_negative_count :
    extractCount (ascii "04EF8:-5") = (-5, none) := by decide

/-- C1 (amended): over a body of well-formed `SUFFIX:COUNT` entries
whose suffix fields have the queried suffix's length (as in the real
protocol, where they always do), parsing scans the entries in order and
returns the count of the first entry whose suffix field equals the
queried digest's suffix (the characters after position 5); if no entry
matches, the result is 0 with no error.  Without the length hypothesis
the scan is a string-prefix match, not suffix-field equality — see the
counterexample. -/
theorem C1_first_matching_entry (hash : GoStr)
    (entries : List (GoStr × GoStr)) (h5 : 5 ≤ hash.length)
    (hwf : ∀ e ∈ entries, e.1.length = (hash.drop 5).length ∧
        ¬ 58 ∈ e.1 ∧ (goAtoi e.2).2 = none) :
    processResponse (entries.map (fun e => e.1 ++ 58 :: e.2)) hash =
      some (match entries.find? (fun e => decide (e.1 = hash.drop 5)) with
            | some e => ((goAtoi e.2).1, none)
            | none => (0, none)) := by
  unfold processResponse
  rw [if_neg (Nat.not_lt.mpr h5)]
  dsimp only
  rw [findLine_entries (hash.drop 5) entries (fun e he => (hwf e he).1)]
  cases hf : entries.find? (fun e => decide (e.1 = hash.drop 5)) with
  | none => simp
  | some e =>
    have hmem : e ∈ entries := List.mem_of_find?_eq_some hf
    have hprops := hwf e hmem
    have hne : e.1 ++ 58 :: e.2 ≠ [] := by simp
    rw [if_neg hne, extractCount_split e.1 e.2 hprops.2.1]
    have hsplit : goAtoi e.2 = ((goAtoi e.2).1, (goAtoi e.2).2) := rfl
    rw [hsplit, hprops.2.2]

/-- Witness for C1: the second entry matches and its count 7 is
returned. -/
theorem C1_first_matching_entry_witness :
    5 ≤ (ascii "AAAAABBBB").length ∧
    processResponse [ascii "CCCC" ++ 58 :: ascii "3",
        ascii "BBBB" ++ 58 :: ascii "7"] (ascii "AAAAABBBB") =
      some (7, none) :=
  ⟨by decide,
   by
     have h := C1_first_matching_entry (ascii "AAAAABBBB")
       [(ascii "CCCC", ascii "3"), (ascii "BBBB", ascii "7")]
       (by decide) (by decide)
     exact h.trans (by decide)⟩

/-- C1 counterexample: a well-formed entry whose 36-character suffix
field merely starts with the queried 35-character suffix is matched and
its count returned, though no entry's suffix field equals the digest's
suffix (the claim as stated demands 0 here). -/
theorem C1_counterexample_prefix_not_equality :
    processResponse [ascii "1E4C9B93F3F0682250B6CF8331B7EE68FD8A:7"]
        (ascii "5BAA61E4C9B93F3F0682250B6CF8331B7EE68FD8") = some (7, none) ∧
    ascii "1E4C9B93F3F0682250B6CF8331B7EE68FD8A:7" =
      ascii "1E4C9B93F3F0682250B6CF8331B7EE68FD8A" ++ 58 :: ascii "7" ∧
    ascii "1E4C9B93F3F0682250B6CF8331B7EE68FD8A" ≠
      (ascii "5BAA61E4C9B93F3F0682250B6CF8331B7EE68FD8").drop 5 := by decide

/-- C3: for every secret, the SHA-1 digest is the 40-character uppercase
hex rendering of SHA-1 over the secret's UTF-8 bytes, and the NTLM
digest is the 32-character uppercase hex rendering of MD4 over the
secret's UTF-16LE encoding; both are pure functions, hence
deterministic. -/
theorem C3_digest_shape (s : List Char) :
    (sha1Hash s).length = 40 ∧ isUpperHexStr (sha1Hash s) ∧
    sha1Hash s = goToUpper (hexEncode (sha1Bytes (utf8Bytes s))) ∧
    (ntHash s).length = 32 ∧ isUpperHexStr (ntHash s) ∧
    ntHash s = goToUpper (hexEncode (md4Bytes (utf16leBytes s))) := by
  refine ⟨?_, ?_, rfl, ?_, ?_, rfl⟩
  · simp [sha1Hash, goToUpper_length, hexEncode_length, sha1Bytes_length]
  · exact hexEncode_upperHex _ (sha1Bytes_lt _)
  · simp [ntHash, goToUpper_length, hexEncode_length, md4Bytes_length]
  · exact hexEncode_upperHex _ (md4Bytes_lt _)

end Exposed
